import Mathlib

/-!
Verification development for the Gemini image-generation wire-protocol client.

The definitions below are a shallow embedding of the TypeScript/JavaScript
source (`src/server/lib/gemini.ts` a.k.a. `auth.ts` in the bundle,
`src/server/lib/cookies.js`, `src/server/routes/generate.ts`,
`src/server/routes/remote-login.ts`).  JavaScript runtime values produced by
`JSON.parse` are modelled by the inductive `JVal`; machine side effects
(logging, cookie persistence, actual HTTP traffic) are modelled by explicit
environments or omitted where they do not influence the returned data, as
noted on each definition.  A thrown JavaScript exception is modelled by
`Except.error`.
-/

/-- Named characters, so that braces, quotes and apostrophes never appear as
character literals in the source of this file. -/
def lbraceC : Char := Char.ofNat 123

/-- Closing brace character. -/
def rbraceC : Char := Char.ofNat 125

/-- Double-quote character. -/
def quoteC : Char := Char.ofNat 34

/-- Backslash character. -/
def bslashC : Char := Char.ofNat 92

/-- Apostrophe character (used by the anti-scripting prefix). -/
def aposC : Char := Char.ofNat 39

/-- Whitespace test matching the characters relevant to `String.prototype.trim`
and the `\s` regex class for this protocol (ASCII whitespace). -/
def isWsC (c : Char) : Bool :=
  c = ' ' || c = '\t' || c = '\n' || c = '\r' || c = Char.ofNat 12 || c = Char.ofNat 11

/-- Decimal digit test. -/
def isDigitC (c : Char) : Bool := '0' ≤ c && c ≤ '9'

/-- Uppercase A–Z test (used by the `__Secure-1PSID[A-Z]*` cookie regex). -/
def isUpperC (c : Char) : Bool := 'A' ≤ c && c ≤ 'Z'

/-- Drop leading whitespace. -/
def dropWs : List Char → List Char
  | [] => []
  | c :: rest => if isWsC c then dropWs rest else c :: rest

/-- JavaScript `String.prototype.trim` on a character list. -/
def trimL (cs : List Char) : List Char :=
  ((dropWs cs.reverse).reverse |> dropWs)

/-- Test for the regex `^\d+$` (entire string is one or more digits). -/
def isDigitsL (cs : List Char) : Bool :=
  !cs.isEmpty && cs.all isDigitC

/-- Prefix test on character lists. -/
def startsWithL : List Char → List Char → Bool
  | [], _ => true
  | _ :: _, [] => false
  | p :: ps, c :: cs => p = c && startsWithL ps cs

/-- Substring test (JavaScript `String.prototype.includes`) for a non-empty
needle. -/
def hasSubL (pat : List Char) : List Char → Bool
  | [] => startsWithL pat []
  | c :: rest => startsWithL pat (c :: rest) || hasSubL pat rest

/-- JavaScript `String.prototype.split("\n")`. -/
def splitNl : List Char → List (List Char)
  | [] => [[]]
  | c :: rest =>
    if c = '\n' then [] :: splitNl rest
    else
      match splitNl rest with
      | l :: ls => (c :: l) :: ls
      | [] => [[c]]

/-- Model of the runtime values JavaScript's `JSON.parse` can produce, plus
`undefValue` for the `undefined` value that out-of-range property accesses return.
Numbers are modelled as integers: every numeric literal in this protocol's
payloads is integral. -/
inductive JVal where
  | null
  | undefValue
  | bool (b : Bool)
  | num (n : Int)
  | str (s : String)
  | arr (xs : List JVal)
  | obj (fields : List (String × JVal))

/-- JavaScript truthiness. -/
def truthy : JVal → Bool
  | .null => false
  | .undefValue => false
  | .bool b => b
  | .num n => !(n == 0)
  | .str s => !s.data.isEmpty
  | .arr _ => true
  | .obj _ => true

/-- `Array.isArray`. -/
def isArr : JVal → Bool
  | .arr _ => true
  | _ => false

/-- Length of an array value (call sites guard with `isArr`). -/
def arrLen : JVal → Nat
  | .arr xs => xs.length
  | _ => 0

/-- Elements of an array value, `[]` for anything else. -/
def elemsOf : JVal → List JVal
  | .arr xs => xs
  | _ => []

/-- Field lookup in an object's field list (first binding wins, as
`JSON.parse` already collapses duplicate keys; our parser keeps them all and
lookup takes the first, which is only reachable for malformed payloads). -/
def fieldLookup (k : String) : List (String × JVal) → Option JVal
  | [] => none
  | (k2, v) :: rest => if k2 = k then some v else fieldLookup k rest

/-- JavaScript property access `v[n]` with a numeric (or numeric-string) key.
On `null`/`undefined` receivers real JavaScript throws a `TypeError`; the
translation of each source function inserts an explicit error at exactly the
accesses where the source performs a plain (non-optional) access on a possibly
null receiver, and uses this total function elsewhere, where it agrees with
the optional-chaining operator `?.` by returning `undefValue`. -/
def jsGetN : JVal → Nat → JVal
  | .arr xs, n => (xs.get? n).getD .undefValue
  | .obj fs, n => (fieldLookup (Nat.repr n) fs).getD .undefValue
  | .str s, n =>
    match s.data.get? n with
    | some c => .str (String.mk [c])
    | none => .undefValue
  | _, _ => .undefValue

/-- JavaScript strict equality `===` restricted to the values this client
compares.  Arrays and objects compare by reference in JavaScript; the values
this code compares all come from distinct freshly parsed JSON subtrees, so two
array/object operands are never the same reference and compare unequal. -/
def jsStrictEq : JVal → JVal → Bool
  | .null, .null => true
  | .undefValue, .undefValue => true
  | .bool a, .bool b => a == b
  | .num a, .num b => a == b
  | .str a, .str b => a == b
  | _, _ => false

/-- JavaScript `a || b`. -/
def jsOr (a b : JVal) : JVal := if truthy a then a else b

/-- Decimal rendering of an integer (JavaScript number-to-string for the
integral numbers this model supports). -/
def intRepr : Int → String
  | .ofNat m => Nat.repr m
  | .negSucc m => "-" ++ Nat.repr (m + 1)

/-- Join a list of strings with commas (array `toString`). -/
def joinComma : List String → String
  | [] => ""
  | [s] => s
  | s :: rest => s ++ "," ++ joinComma rest

/-- Model of JavaScript `String(v)` coercion, with fuel for nesting depth
(protocol payloads nest far below any fuel used at call sites). -/
def jsToString : Nat → JVal → String
  | _, .null => "null"
  | _, .undefValue => "undefined"
  | _, .bool b => if b then "true" else "false"
  | _, .num n => intRepr n
  | _, .str s => s
  | 0, .arr _ => ""
  | fuel + 1, .arr xs =>
    joinComma (xs.map fun x =>
      match x with
      | .null => ""
      | .undefValue => ""
      | y => jsToString fuel y)
  | _, .obj _ => "[object Object]"

/-- Hexadecimal digit value, for `\uXXXX` escapes (written over code points
to keep the arithmetic explicit). -/
def hexVal (c : Char) : Option Nat :=
  let n := c.toNat
  if 48 ≤ n ∧ n ≤ 57 then some (n - 48)
  else if 97 ≤ n ∧ n ≤ 102 then some (n - 87)
  else if 65 ≤ n ∧ n ≤ 70 then some (n - 55)
  else none

/-- Body of a JSON string literal (after the opening quote): returns the
decoded string and the input after the closing quote. -/
def strBody (acc : List Char) : List Char → Option (String × List Char)
  | [] => none
  | c :: rest =>
    if c = quoteC then some (String.mk acc.reverse, rest)
    else if c = bslashC then
      match rest with
      | [] => none
      | e :: rest2 =>
        if e = quoteC then strBody (quoteC :: acc) rest2
        else if e = bslashC then strBody (bslashC :: acc) rest2
        else if e = '/' then strBody ('/' :: acc) rest2
        else if e = 'n' then strBody ('\n' :: acc) rest2
        else if e = 't' then strBody ('\t' :: acc) rest2
        else if e = 'r' then strBody ('\r' :: acc) rest2
        else if e = 'b' then strBody (Char.ofNat 8 :: acc) rest2
        else if e = 'f' then strBody (Char.ofNat 12 :: acc) rest2
        else if e = 'u' then
          match rest2 with
          | h1 :: h2 :: h3 :: h4 :: rest3 =>
            match hexVal h1, hexVal h2, hexVal h3, hexVal h4 with
            | some a, some b2, some c3, some d =>
              strBody (Char.ofNat ([a, b2, c3, d].foldl (fun acc2 d2 => 16 * acc2 + d2) 0) :: acc) rest3
            | _, _, _, _ => none
          | _ => none
        else none
    else strBody (c :: acc) rest

/-- Consume decimal digits, accumulating their value. -/
def digitsAcc (acc : Nat) : List Char → (Nat × List Char)
  | [] => (acc, [])
  | c :: rest =>
    if isDigitC c then digitsAcc (acc * 10 + (c.toNat - '0'.toNat)) rest
    else (acc, c :: rest)

/-- Parse a JSON number (integral only; a fractional or exponent part makes
the overall parse fail, which this model treats as a `JSON.parse` throw). -/
def parseNum : List Char → Option (JVal × List Char)
  | [] => none
  | c :: rest =>
    if c = '-' then
      match rest with
      | d :: _ =>
        if isDigitC d then
          let (n, rest2) := digitsAcc 0 rest
          some (.num (-(n : Int)), rest2)
        else none
      | [] => none
    else if isDigitC c then
      let (n, rest2) := digitsAcc 0 (c :: rest)
      some (.num (n : Int), rest2)
    else none

/-- Stack frame of the iterative JSON parser: an array or object currently
being filled. -/
inductive PFrame where
  | arrF (items : List JVal)
  | objF (key : String) (fields : List (String × JVal))

/-- Parser mode: expecting a value, or having just produced one. -/
inductive PMode where
  | pv
  | av (v : JVal)

/-- One fuel-indexed step machine implementing `JSON.parse`'s grammar
iteratively (so that every definition is structurally recursive and reduces in
the kernel).  Each recursive call consumes at least one input character, so
`length + 1` fuel always suffices. -/
def pstep : Nat → PMode → List PFrame → List Char → Option (JVal × List Char)
  | 0, _, _, _ => none
  | fuel + 1, .pv, stk, cs0 =>
    match dropWs cs0 with
    | [] => none
    | c :: rest =>
      if c = '[' then
        match dropWs rest with
        | ']' :: r2 => pstep fuel (.av (.arr [])) stk r2
        | _ => pstep fuel .pv (.arrF [] :: stk) rest
      else if c = lbraceC then
        match dropWs rest with
        | [] => none
        | d :: r2 =>
          if d = rbraceC then pstep fuel (.av (.obj [])) stk r2
          else if d = quoteC then
            match strBody [] r2 with
            | some (k, r3) =>
              match dropWs r3 with
              | ':' :: r4 => pstep fuel .pv (.objF k [] :: stk) r4
              | _ => none
            | none => none
          else none
      else if c = quoteC then
        match strBody [] rest with
        | some (s, r2) => pstep fuel (.av (.str s)) stk r2
        | none => none
      else if startsWithL "null".data (c :: rest) then
        pstep fuel (.av .null) stk ((c :: rest).drop 4)
      else if startsWithL "true".data (c :: rest) then
        pstep fuel (.av (.bool true)) stk ((c :: rest).drop 4)
      else if startsWithL "false".data (c :: rest) then
        pstep fuel (.av (.bool false)) stk ((c :: rest).drop 5)
      else
        match parseNum (c :: rest) with
        | some (v, r2) => pstep fuel (.av v) stk r2
        | none => none
  | fuel + 1, .av v, stk, cs0 =>
    match stk with
    | [] => some (v, cs0)
    | .arrF items :: stk2 =>
      match dropWs cs0 with
      | ',' :: rest => pstep fuel .pv (.arrF (items ++ [v]) :: stk2) rest
      | ']' :: rest => pstep fuel (.av (.arr (items ++ [v]))) stk2 rest
      | _ => none
    | .objF k fields :: stk2 =>
      match dropWs cs0 with
      | ',' :: rest =>
        match dropWs rest with
        | q :: r2 =>
          if q = quoteC then
            match strBody [] r2 with
            | some (k2, r3) =>
              match dropWs r3 with
              | ':' :: r4 => pstep fuel .pv (.objF k2 (fields ++ [(k, v)]) :: stk2) r4
              | _ => none
            | none => none
          else none
        | [] => none
      | c :: rest =>
        if c = rbraceC then pstep fuel (.av (.obj (fields ++ [(k, v)]))) stk2 rest
        else none
      | [] => none

/-- `JSON.parse` on a character list: `none` models a thrown `SyntaxError`. -/
def parseJsonL (cs : List Char) : Option JVal :=
  match pstep (cs.length + 1) .pv [] cs with
  | some (v, rest) => if (dropWs rest).isEmpty then some v else none
  | none => none

/-- `JSON.parse` on a string. -/
def parseJson (s : String) : Option JVal := parseJsonL s.data

/-- `JSON.parse` applied to an arbitrary runtime value: non-string arguments
are first coerced with `String(...)`, as JavaScript does. -/
def jsonParseJVal : JVal → Option JVal
  | .str s => parseJson s
  | v => parseJson (jsToString 64 v)

/-- Error taxonomy of the client.  The source throws `Error` objects with
distinct messages; each throw site is mapped to one constructor.  The last two
constructors model uncaught `TypeError`s that escape `parseStreamResponse`
(a plain property access on `null`, and calling `.join` on a non-array). -/
inductive GemError where
  | authExpired
  | protocolMismatch (tok : String)
  | uploadInitFailed
  | uploadFailed
  | httpFailed
  | downloadFailed
  | noImagesProduced
  | upscaleParseFailed
  | nullDeref
  | notAFunction
deriving DecidableEq

/-- One parsed image entry (`ParsedImage` in the source).  The TypeScript
types declare strings, but at runtime the fields hold whatever JSON values the
payload carried, so they are modelled as `JVal`. -/
structure ParsedImage where
  url : JVal
  filename : JVal
  mime : JVal
  dimensions : JVal
  imageToken : JVal
  responseChunkId : JVal

/-- The result (and fold state) of one `parseStreamResponse` run. -/
structure ParsedResponse where
  images : List ParsedImage
  conversationId : JVal
  responseId : JVal
  modelName : JVal

/-- Left fold over a list with an error-propagating step function (the shape
of a `for` loop whose body can throw). -/
def foldE (f : α → β → Except GemError α) : α → List β → Except GemError α
  | a, [] => .ok a
  | a, b :: bs =>
    match f a b with
    | .error e => .error e
    | .ok a2 => foldE f a2 bs

/-- The stream-control tag check of `parseStreamResponse`: a line whose first
element is an array tagged `di`, `e` or `af.httprm` is skipped. -/
def ctrlTag (outer : JVal) : Bool :=
  isArr outer && 0 < arrLen outer && isArr (jsGetN outer 0) &&
    (jsStrictEq (jsGetN (jsGetN outer 0) 0) (.str "di") ||
     jsStrictEq (jsGetN (jsGetN outer 0) 0) (.str "e") ||
     jsStrictEq (jsGetN (jsGetN outer 0) 0) (.str "af.httprm"))

/-- The content-line check of `parseStreamResponse`: the line is an array, its
first element is truthy and that element's slot 0 is exactly `"wrb.fr"`. -/
def wrbTag (outer : JVal) : Bool :=
  isArr outer && truthy (jsGetN outer 0) &&
    jsStrictEq (jsGetN (jsGetN outer 0) 0) (.str "wrb.fr")

/-- Front half of one `parseStreamResponse` loop iteration: trim the line,
skip numeric length lines, `JSON.parse` it (a throw is caught and skips the
line), skip control-tagged and non-`wrb.fr` lines, then decode the
double-encoded payload string at slot `[0][2]` (again, a caught throw skips
the line).  Returns the decoded payload when the iteration reaches it. -/
def decodeContentPayload (rawLine : List Char) : Option JVal :=
  let line := trimL rawLine
  if isDigitsL line then none
  else
    match parseJsonL line with
    | none => none
    | some outer =>
      if ctrlTag outer then none
      else if !wrbTag outer then none
      else
        let innerStr := jsGetN (jsGetN outer 0) 2
        if !truthy innerStr then none
        else jsonParseJVal innerStr

/-- One variant of one image group (`for (const variant of variants)` body).
A new image is appended only when no already-collected image has a
strictly-equal `url`.  Inside that branch the source logs
`dimensions.join("x")` for truthy `dimensions`, which throws a `TypeError`
when the value is not an array; the error constructor models that uncaught
throw. -/
def processVariant (chunkId : JVal) (images : List ParsedImage) (variant : JVal) :
    Except GemError (List ParsedImage) :=
  if !isArr variant || !truthy (jsGetN variant 3) then .ok images
  else
    let url := jsGetN variant 3
    let filename := jsOr (jsGetN variant 2) (.str "image")
    let mime := jsOr (jsGetN variant 11) (.str "image/png")
    let dimensions := jsOr (jsGetN variant 15) .null
    let imageToken :=
      match jsGetN variant 5 with
      | .str s => JVal.str s
      | _ => JVal.null
    if images.any fun p => jsStrictEq p.url url then .ok images
    else if truthy dimensions && !isArr dimensions then .error .notAFunction
    else .ok (images ++ [⟨url, filename, mime, dimensions, imageToken, chunkId⟩])

/-- The two known variant slots of an image group, filtered for truthiness
(`[group[0][3], group[0][6]].filter(Boolean)`). -/
def variantSlots (group : JVal) : List JVal :=
  [jsGetN (jsGetN group 0) 3, jsGetN (jsGetN group 0) 6].filter truthy

/-- One image group (`for (const group of allImageGroups)` body). -/
def processGroup (chunkId : JVal) (images : List ParsedImage) (group : JVal) :
    Except GemError (List ParsedImage) :=
  if !isArr group || !isArr (jsGetN group 0) then .ok images
  else foldE (processVariant chunkId) images (variantSlots group)

/-- Collect the image groups of a candidate's image container: the plain
generation shape `imageContainer[7]?.[0]` and the edit shape
`imageContainer[0]?.["8"]` (whose element 0 is spread when it is an array). -/
def allImageGroups (ic : JVal) : List JVal :=
  let plain := jsGetN (jsGetN ic 7) 0
  let l1 := match plain with | .arr xs => xs | _ => []
  let editImages := jsGetN (jsGetN ic 0) 8
  let l2 :=
    if isArr ic && truthy editImages then
      match jsGetN editImages 0 with | .arr xs => xs | _ => []
    else []
  l1 ++ l2

/-- One response candidate (`for (const candidate of inner[4])` body):
candidates without a truthy image container at slot 12 are skipped; the
response chunk id is `candidate[0]` when it is a string starting `rc_`. -/
def processCandidate (images : List ParsedImage) (candidate : JVal) :
    Except GemError (List ParsedImage) :=
  if !isArr candidate || !truthy (jsGetN candidate 12) then .ok images
  else
    let chunkId :=
      match jsGetN candidate 0 with
      | .str s => if startsWithL "rc_".data s.data then JVal.str s else JVal.null
      | _ => JVal.null
    foldE (processGroup chunkId) images (allImageGroups (jsGetN candidate 12))

/-- Processing of one successfully decoded (non-`null`) payload: update the
conversation id / response id pair (`x || previous`), the model name (only a
truthy string at slot 42), then walk the candidate list at slot 4.  The
source's slot-2 "thinking" block only emits log lines and cannot throw, so it
is omitted. -/
def processPayload (st : ParsedResponse) (inner : JVal) : Except GemError ParsedResponse :=
  let i1 := jsGetN inner 1
  let conv :=
    if isArr i1 && decide (2 ≤ arrLen i1) then jsOr (jsGetN i1 0) st.conversationId
    else st.conversationId
  let resp :=
    if isArr i1 && decide (2 ≤ arrLen i1) then jsOr (jsGetN i1 1) st.responseId
    else st.responseId
  let mdl :=
    if truthy (jsGetN inner 42) then
      match jsGetN inner 42 with
      | .str s => JVal.str s
      | _ => st.modelName
    else st.modelName
  if !isArr (jsGetN inner 4) then .ok ⟨st.images, conv, resp, mdl⟩
  else
    match foldE processCandidate st.images (elemsOf (jsGetN inner 4)) with
    | .error e => .error e
    | .ok imgs => .ok ⟨imgs, conv, resp, mdl⟩

/-- One full loop iteration of `parseStreamResponse`.  A payload that decodes
to JSON `null` makes the source evaluate `inner[1]` on `null`, a `TypeError`
outside every `try` block, modelled by `nullDeref`. -/
def processLine (st : ParsedResponse) (rawLine : List Char) : Except GemError ParsedResponse :=
  match decodeContentPayload rawLine with
  | none => .ok st
  | some .null => .error .nullDeref
  | some inner => processPayload st inner

/-- Strip the anti-scripting prefix: `replace(/^\)\]\}'\s*\n/, "")`.  The
greedy `\s*` backtracks so that the match ends at the last newline of the
leading whitespace run; no newline there means no match. -/
def stripAnti (cs : List Char) : List Char :=
  match cs with
  | a :: b :: c2 :: d :: rest =>
    if a = ')' && b = ']' && c2 = rbraceC && d = aposC then
      let ws := rest.takeWhile isWsC
      let tail := rest.drop ws.length
      if ws.contains '\n' then ((ws.reverse.takeWhile fun c => !(c = '\n')).reverse) ++ tail
      else cs
    else cs
  | _ => cs

/-- The non-blank lines of a streamed response after prefix stripping
(`cleaned.split("\n").filter(l => l.trim().length > 0)`). -/
def linesOf (s : String) : List (List Char) :=
  (splitNl (stripAnti s.data)).filter fun l => !(trimL l).isEmpty

/-- Model of `parseStreamResponse` (the `StreamDecoder`): a fold of
`processLine` over the response's lines starting from the all-null state.
`Except.error` models an uncaught `TypeError` escaping the function. -/
def parseStreamResponse (responseText : String) : Except GemError ParsedResponse :=
  foldE processLine ⟨[], .null, .null, .null⟩ (linesOf responseText)

/-- Scan for the first occurrence of `pat` that is followed by a non-empty run
of non-quote characters and a closing quote, returning that run.  This is the
leftmost-match semantics of the regexes `/"KEY":"([^"]+)"/`: a candidate
occurrence whose capture would be empty or unClosed is passed over in favour
of a later one, exactly as the regex engine backtracks. -/
def extractAfter (pat : List Char) : List Char → Option (List Char)
  | [] => none
  | c :: rest =>
    if startsWithL pat (c :: rest) then
      let after := (c :: rest).drop pat.length
      let cap := after.takeWhile fun ch => !(ch = quoteC)
      match cap, after.drop cap.length with
      | _ :: _, q :: _ =>
        if q = quoteC then some cap else extractAfter pat rest
      | _, _ => extractAfter pat rest
    else extractAfter pat rest

/-- Extract the capture of `/"key":"([^"]+)"/` from a page. -/
def extractLit (html : String) (key : String) : Option String :=
  (extractAfter (quoteC :: (key.data ++ quoteC :: ':' :: [quoteC])) html.data).map
    fun cs => String.mk cs

/-- The session tokens scraped from the root page (`SessionTokens` in the
source; the field `at` is called `atTok` because `at` is reserved in Lean). -/
structure SessionTokens where
  atTok : String
  bl : String
  fSid : String
  pushId : Option String
  clientPctx : Option String
deriving DecidableEq

/-- The observable part of the root-page fetch: HTTP status and body. -/
structure FetchPage where
  status : Nat
  html : String

/-- Model of `getSessionTokens` (the `TokenExtractor`): a 3xx status throws
the auth-expired error before the body is read; otherwise the three mandatory
literals are scraped (each missing one is its own protocol-mismatch throw, in
source order) and the two optional ones default to `none`.  The opportunistic
cookie refresh (`refreshCookiesFromResponse`) only mutates the cookie store
and is omitted; it does not influence the returned tokens. -/
def getSessionTokens (page : FetchPage) : Except GemError SessionTokens :=
  if 300 ≤ page.status ∧ page.status < 400 then .error .authExpired
  else
    match extractLit page.html "SNlM0e" with
    | none => .error (.protocolMismatch "SNlM0e")
    | some a =>
      match extractLit page.html "cfb2h" with
      | none => .error (.protocolMismatch "cfb2h")
      | some b =>
        match extractLit page.html "FdrFJe" with
        | none => .error (.protocolMismatch "FdrFJe")
        | some c =>
          .ok ⟨a, b, c, extractLit page.html "qKIAYe", extractLit page.html "Ylro7b"⟩

/-- The parts of one HTTP response that `downloadImageToBuffer` inspects.
Bodies are modelled as values (text view and byte view) rather than one-shot
streams. -/
structure FetchResp where
  status : Nat
  location : Option String
  contentType : String
  bodyText : String
  bodyBytes : List Nat

/-- `res.status` in 300–399. -/
def isRedirectStatus (n : Nat) : Bool := decide (300 ≤ n) && decide (n < 400)

/-- `res.ok`: status in 200–299. -/
def isOkStatus (n : Nat) : Bool := decide (200 ≤ n) && decide (n < 300)

/-- The redirect-following loop of `downloadImageToBuffer`, with `fuel`
counting the remaining loop iterations after the current one (the source runs
`for (let i = 0; i < 8; i++)`, so the entry point uses fuel 7 for 8 fetches).
A 3xx response follows `Location` (or ends the loop when absent); a non-2xx
non-3xx response ends the loop; a 200 response whose content type contains
`text/plain` and whose trimmed body starts with `https://` is a soft redirect
to that body.  The response of the final iteration is returned even when it
asked for a further hop, exactly as the source's `res` variable. -/
def dlLoop (f : String → FetchResp) : Nat → String → FetchResp
  | 0, url => f url
  | fuel + 1, url =>
    let r := f url
    if isRedirectStatus r.status then
      match r.location with
      | none => r
      | some loc => dlLoop f fuel loc
    else if !isOkStatus r.status then r
    else if hasSubL "text/plain".data r.contentType.data &&
        startsWithL "https://".data (trimL r.bodyText.data) then
      dlLoop f fuel (String.mk (trimL r.bodyText.data))
    else r

/-- Model of `downloadImageToBuffer` (the `ImageFetcher`) over a fetch oracle
`f` mapping a URL to its response: after at most 8 fetches, a non-2xx final
response is the download-failed error, a 2xx one yields its bytes. -/
def downloadImageToBuffer (f : String → FetchResp) (url : String) :
    Except GemError (List Nat) :=
  let r := dlLoop f 7 url
  if isOkStatus r.status then .ok r.bodyBytes else .error .downloadFailed

/-- Result of `uploadImageBuffer` for one attachment. -/
structure UploadedImage where
  uploadPath : String
  fileName : String
  mimeType : String
deriving DecidableEq

/-- Environment of one `generateImages` call: the root-page fetch, the
per-attachment outcome that `uploadImageBuffer` would produce for each input
buffer (in order), and the StreamGenerate POST's success flag and body. -/
structure GenEnv where
  page : FetchPage
  uploadResults : List (Except GemError UploadedImage)
  streamOk : Bool
  responseText : String

/-- The attachment loop of `generateImages`: sequential awaits with no
per-file catch, so the first upload error propagates and the remaining
uploads never run. -/
def uploadAll : List (Except GemError UploadedImage) → Except GemError (List UploadedImage)
  | [] => .ok []
  | r :: rs =>
    match r with
    | .error e => .error e
    | .ok a =>
      match uploadAll rs with
      | .error e => .error e
      | .ok rest => .ok (a :: rest)

/-- Model of `generateImages`: extract tokens, upload every attachment, send
the request, decode the stream, and turn a zero-image result into the
`noImagesProduced` error.  Request encoding (`buildRequestPayload`) only
shapes outbound bytes and is not modelled. -/
def generateImages (env : GenEnv) : Except GemError ParsedResponse :=
  match getSessionTokens env.page with
  | .error e => .error e
  | .ok _ =>
    match uploadAll env.uploadResults with
    | .error e => .error e
    | .ok _ =>
      if !env.streamOk then .error .httpFailed
      else
        match parseStreamResponse env.responseText with
        | .error e => .error e
        | .ok parsed =>
          if parsed.images.length = 0 then .error .noImagesProduced
          else .ok parsed

/-- The PNG filter of the `/generate` route
(`result.images.filter(img => img.mime === "image/png")`). -/
def pngOnly (images : List ParsedImage) : List ParsedImage :=
  images.filter fun img => jsStrictEq img.mime (.str "image/png")

/-- The per-image download loop of the `/generate` route: each download is
wrapped in its own `try`/`catch`, a failure is logged and skipped, the loop
continues with the remaining images. -/
def routeDownloadLoop (dl : JVal → Except GemError (List Nat)) :
    List ParsedImage → List (ParsedImage × List Nat)
  | [] => []
  | img :: rest =>
    match dl img.url with
    | .ok buf => (img, buf) :: routeDownloadLoop dl rest
    | .error _ => routeDownloadLoop dl rest

/-- Guard of the upscale-response entry loop: an array entry tagged
`"wrb.fr"`/`"c8o8Fe"` with a truthy payload at slot 2. -/
def c8o8Guard (e : JVal) : Bool :=
  isArr e && jsStrictEq (jsGetN e 0) (.str "wrb.fr") &&
    jsStrictEq (jsGetN e 1) (.str "c8o8Fe") && truthy (jsGetN e 2)

/-- One line of the upscale-response scan in `requestFullSizeUrl`.  The whole
line body sits in one `try`, so a parse failure of the line or of the first
guard-passing entry's payload — or the `inner[0]` access throwing on a `null`
payload — abandons the line (`catch { continue }`).  Returns the value the
line assigns to `fullSizeUrl`, which may be falsy. -/
def fsLineRaw (rawLine : List Char) : Option JVal :=
  if isDigitsL (trimL rawLine) then none
  else
    match parseJsonL rawLine with
    | none => none
    | some parsed =>
      if !isArr parsed then none
      else
        match (elemsOf parsed).find? c8o8Guard with
        | none => none
        | some entry =>
          match jsonParseJVal (jsGetN entry 2) with
          | none => none
          | some .null => none
          | some inner => some (jsGetN inner 0)

/-- The line loop of `requestFullSizeUrl`: `fullSizeUrl` starts `null`, each
line may assign it, and a truthy value stops the scan. -/
def fsScan : JVal → List (List Char) → JVal
  | acc, [] => acc
  | acc, l :: rest =>
    match fsLineRaw l with
    | none => fsScan acc rest
    | some v => if truthy v then v else fsScan v rest

/-- Decoding half of `requestFullSizeUrl` (the `UpscaleProtocol`): strip the
anti-scripting prefix, scan the lines for the single decoded result, fail
with the upscale-parse error when nothing truthy was found, and otherwise
append the fixed full-resolution suffix. -/
def requestFullSizeUrl (responseText : String) : Except GemError String :=
  let u := fsScan .null (linesOf responseText)
  if truthy u then .ok (jsToString 64 u ++ "=d-I?alr=yes")
  else .error .upscaleParseFailed

/-- Key-presence test in the cookie store. -/
def anyKey (store : List (String × String)) (k : String) : Bool :=
  store.any fun p => p.1 == k

/-- One property assignment `store[k] = v` of `Object.assign`: an existing
key keeps its position and every binding of it is updated; a new key is
appended. -/
def setKV (store : List (String × String)) (k v : String) : List (String × String) :=
  if anyKey store k then store.map fun p => if p.1 == k then (k, v) else p
  else store ++ [(k, v)]

/-- Model of `setCookies` / `Object.assign(store, obj)` (the `CookieStore`
merge): assign each update in order. -/
def setCookies (store updates : List (String × String)) : List (String × String) :=
  updates.foldl (fun st p => setKV st p.1 p.2) store

/-- First value bound to `k` in the store. -/
def lookupKV (store : List (String × String)) (k : String) : Option String :=
  match store.find? (fun p => p.1 == k) with
  | some p => some p.2
  | none => none

/-- Session status of the remote-login state machine; the absent-session
state `idle` is represented by `Option.none` at the state level, as in the
source where `session` is nulled. -/
inductive SessStatus where
  | running
  | success
  | timeout
  | sessError
deriving DecidableEq

/-- State of `AuthSessionManager`: the single global session (if any) and the
relay connection's cookie-capture map. -/
structure AuthSessionState where
  session : Option SessStatus
  captured : List (String × String)
deriving DecidableEq

/-- A network-debugging event carrying cookie name/value pairs: `Set-Cookie`
response headers or outgoing request cookies. -/
inductive NetEvent where
  | setCookieHdr (entries : List (String × String))
  | requestCookies (entries : List (String × String))

/-- Name filter of the `Set-Cookie` path: the regex
`^(__Secure-1PSID[A-Z]*)=([^;]+)` (prefix plus uppercase-only tail, non-empty
value). -/
def scNameOk (n : String) : Bool :=
  startsWithL "__Secure-1PSID".data n.data && (n.data.drop 14).all isUpperC

/-- Name filter of the request-cookie path: `startsWith("__Secure-1PSID")`
with a truthy value. -/
def reqNameOk (n : String) : Bool :=
  startsWithL "__Secure-1PSID".data n.data

/-- The pairs an event contributes to the capture map. -/
def eventPairs : NetEvent → List (String × String)
  | .setCookieHdr es => es.filter fun p => scNameOk p.1 && !p.2.data.isEmpty
  | .requestCookies es => es.filter fun p => reqNameOk p.1 && !p.2.data.isEmpty

/-- The `checkAndCapture` condition: both mandatory cookies captured with
truthy values. -/
def capComplete (cap : List (String × String)) : Bool :=
  (match lookupKV cap "__Secure-1PSID" with
   | some v => !v.data.isEmpty
   | none => false) &&
  (match lookupKV cap "__Secure-1PSIDTS" with
   | some v => !v.data.isEmpty
   | none => false)

/-- One network event processed by the relay handler: merge the matching
pairs into the capture map, then `checkAndCapture` — when both mandatory
cookies are present and a session object exists, its status is set to
`success` (note the source checks only existence, not that the status is
`running`, so a later event re-assigns `success`). -/
def netStep (st : AuthSessionState) (ev : NetEvent) : AuthSessionState :=
  let cap := setCookies st.captured (eventPairs ev)
  if capComplete cap then
    match st.session with
    | some _ => ⟨some .success, cap⟩
    | none => ⟨none, cap⟩
  else ⟨st.session, cap⟩

/-- The `/remote-login/start` handler: rejected with 409 when a session is
`running` (state unchanged), otherwise any stale session is closed and a
fresh `running` one is created (the relay's capture map starts empty). -/
def startStep (st : AuthSessionState) : AuthSessionState × Bool :=
  match st.session with
  | some .running => (st, false)
  | _ => (⟨some .running, []⟩, true)

/-- Number of steps in a network-event trace at which the session status
transitions into `success` from anything else. -/
def succFlips : AuthSessionState → List NetEvent → Nat
  | _, [] => 0
  | st, e :: es =>
    let st2 := netStep st e
    (if st.session ≠ some .success ∧ st2.session = some .success then 1 else 0) +
      succFlips st2 es

/-- A variant on which the source's image log line would call `.join` on a
truthy non-array `dimensions` value (the uncaught-`TypeError` hazard of
`processVariant`). -/
def variantBadDims (variant : JVal) : Bool :=
  isArr variant && truthy (jsGetN variant 3) &&
    (truthy (jsOr (jsGetN variant 15) .null) && !isArr (jsOr (jsGetN variant 15) .null))

/-- Group-level propagation of `variantBadDims`. -/
def groupBadDims (group : JVal) : Bool :=
  isArr group && isArr (jsGetN group 0) && (variantSlots group).any variantBadDims

/-- Candidate-level propagation of `variantBadDims`. -/
def candidateBadDims (candidate : JVal) : Bool :=
  isArr candidate && truthy (jsGetN candidate 12) &&
    (allImageGroups (jsGetN candidate 12)).any groupBadDims

/-- Payload-level propagation of `variantBadDims`. -/
def payloadBadDims (inner : JVal) : Bool :=
  isArr (jsGetN inner 4) && (elemsOf (jsGetN inner 4)).any candidateBadDims

/-- A line that can make `parseStreamResponse` throw: its double-decoded
payload is JSON `null`, or some image variant in it carries a truthy
non-array dimensions field (the log line's `.join`). -/
def lineMayCrash (rawLine : List Char) : Bool :=
  match decodeContentPayload rawLine with
  | none => false
  | some .null => true
  | some inner => payloadBadDims inner

/-- The conversation-id / response-id update one decoded payload performs:
`x || previous` on both slots when the payload's slot 1 is an array of length
at least 2. -/
def pairUpdate (inner : JVal) (pr : JVal × JVal) : JVal × JVal :=
  let i1 := jsGetN inner 1
  if isArr i1 && decide (2 ≤ arrLen i1) then
    (jsOr (jsGetN i1 0) pr.1, jsOr (jsGetN i1 1) pr.2)
  else pr

/-- The conversation-id / response-id pair after scanning a line list. -/
def pairScan : JVal × JVal → List (List Char) → JVal × JVal
  | pr, [] => pr
  | pr, l :: rest =>
    match decodeContentPayload l with
    | some inner => pairScan (pairUpdate inner pr) rest
    | none => pairScan pr rest

/-- Per-line extraction used to specify `requestFullSizeUrl`: the truthy
value a line would assign to `fullSizeUrl`, if any. -/
def fsTruthy (rawLine : List Char) : Option JVal :=
  match fsLineRaw rawLine with
  | some v => if truthy v then some v else none
  | none => none

/-- A 3xx status is never `res.ok`. -/
theorem redirect_not_ok {n : Nat} (h : isRedirectStatus n = true) : isOkStatus n = false := by
  simp only [isRedirectStatus, Bool.and_eq_true, decide_eq_true_eq] at h
  have h2 : ¬(n < 300) := by omega
  simp [isOkStatus, h2]

/-- C3: a redirect (3xx) root-page fetch fails with the auth-expired error and
never yields tokens; otherwise the three mandatory literals (SNlM0e, cfb2h,
FdrFJe) are returned verbatim with the two optional ones (qKIAYe, Ylro7b)
exactly as extracted (absent ones default to `none`), and a missing mandatory
literal yields a protocol-mismatch error. -/
theorem getSessionTokens_spec (page : FetchPage) :
    (300 ≤ page.status ∧ page.status < 400 → getSessionTokens page = .error .authExpired) ∧
    (¬(300 ≤ page.status ∧ page.status < 400) →
      (∀ a b c, extractLit page.html "SNlM0e" = some a →
          extractLit page.html "cfb2h" = some b →
          extractLit page.html "FdrFJe" = some c →
          getSessionTokens page =
            .ok ⟨a, b, c, extractLit page.html "qKIAYe", extractLit page.html "Ylro7b"⟩) ∧
      (extractLit page.html "SNlM0e" = none ∨ extractLit page.html "cfb2h" = none ∨
          extractLit page.html "FdrFJe" = none →
        ∃ t, getSessionTokens page = .error (.protocolMismatch t))) := by
  refine ⟨fun h => by simp [getSessionTokens, h], fun h => ⟨fun a b c ha hb hc => ?_, fun hmiss => ?_⟩⟩
  · simp [getSessionTokens, h, ha, hb, hc]
  · rcases hmiss with hm | hm | hm
    · exact ⟨"SNlM0e", by simp [getSessionTokens, h, hm]⟩
    · cases hsn : extractLit page.html "SNlM0e" with
      | none => exact ⟨"SNlM0e", by simp [getSessionTokens, h, hsn]⟩
      | some a => exact ⟨"cfb2h", by simp [getSessionTokens, h, hsn, hm]⟩
    · cases hsn : extractLit page.html "SNlM0e" with
      | none => exact ⟨"SNlM0e", by simp [getSessionTokens, h, hsn]⟩
      | some a =>
        cases hcf : extractLit page.html "cfb2h" with
        | none => exact ⟨"cfb2h", by simp [getSessionTokens, h, hsn, hcf]⟩
        | some b => exact ⟨"FdrFJe", by simp [getSessionTokens, h, hsn, hcf, hm]⟩

/-- Fixture page carrying all five literals. -/
def pageC3ok : FetchPage :=
  ⟨200, "xx\"SNlM0e\":\"AT1\",\"cfb2h\":\"BL1\",\"FdrFJe\":\"SID1\",\"qKIAYe\":\"PU1\",\"Ylro7b\":\"PC1\"yy"⟩

/-- Fixture page lacking the mandatory cfb2h literal. -/
def pageC3miss : FetchPage :=
  ⟨200, "xx\"SNlM0e\":\"AT1\",\"FdrFJe\":\"SID1\"yy"⟩

/-- Fixture redirect response. -/
def pageC3redir : FetchPage := ⟨302, "\"SNlM0e\":\"AT1\",\"cfb2h\":\"BL1\",\"FdrFJe\":\"SID1\""⟩

theorem getSessionTokens_spec_witness :
    getSessionTokens pageC3redir = .error .authExpired ∧
    getSessionTokens pageC3ok = .ok ⟨"AT1", "BL1", "SID1", some "PU1", some "PC1"⟩ ∧
    (∃ t, getSessionTokens pageC3miss = .error (.protocolMismatch t)) := by
  refine ⟨(getSessionTokens_spec pageC3redir).1 (by decide), ?_, ?_⟩
  · exact (((getSessionTokens_spec pageC3ok).2 (by decide)).1 "AT1" "BL1" "SID1" rfl rfl rfl).trans rfl
  · exact ((getSessionTokens_spec pageC3miss).2 (by decide)).2 (Or.inr (Or.inl rfl))

/-- C4: `downloadImageToBuffer` follows at most 8 hops, supporting ordinary
3xx redirects via `Location` and soft redirects (200 `text/plain` body whose
trimmed content is the next https URL); one ordinary redirect followed by one
soft redirect resolves to the final binary content; a chain of 9 redirects, or
an immediately non-success non-redirect response, fails with the
download-failed error. -/
theorem downloadImageToBuffer_spec :
    (∀ (f : String → FetchResp) (u0 u1 : String),
      isRedirectStatus (f u0).status = true →
      (f u0).location = some u1 →
      isOkStatus (f u1).status = true →
      (hasSubL "text/plain".data (f u1).contentType.data &&
        startsWithL "https://".data (trimL (f u1).bodyText.data)) = true →
      isOkStatus (f (String.mk (trimL (f u1).bodyText.data))).status = true →
      (hasSubL "text/plain".data (f (String.mk (trimL (f u1).bodyText.data))).contentType.data &&
        startsWithL "https://".data
          (trimL (f (String.mk (trimL (f u1).bodyText.data))).bodyText.data)) = false →
      downloadImageToBuffer f u0 = .ok (f (String.mk (trimL (f u1).bodyText.data))).bodyBytes) ∧
    (∀ (f : String → FetchResp) (us : Nat → String),
      (∀ i, i ≤ 8 →
        isRedirectStatus (f (us i)).status = true ∧ (f (us i)).location = some (us (i + 1))) →
      downloadImageToBuffer f (us 0) = .error .downloadFailed) ∧
    (∀ (f : String → FetchResp) (u : String),
      isRedirectStatus (f u).status = false →
      isOkStatus (f u).status = false →
      downloadImageToBuffer f u = .error .downloadFailed) := by
  refine ⟨?_, ?_, ?_⟩
  · intro f u0 u1 h0r h0l h1ok h1soft h2ok h2plain
    have h1nr : isRedirectStatus (f u1).status = false := by
      cases hb : isRedirectStatus (f u1).status with
      | false => rfl
      | true => rw [redirect_not_ok hb] at h1ok; cases h1ok
    have h2nr : isRedirectStatus (f (String.mk (trimL (f u1).bodyText.data))).status = false := by
      cases hb : isRedirectStatus (f (String.mk (trimL (f u1).bodyText.data))).status with
      | false => rfl
      | true => rw [redirect_not_ok hb] at h2ok; cases h2ok
    rw [Bool.and_eq_true] at h1soft
    simp [downloadImageToBuffer, dlLoop, h0r, h0l, h1nr, h1ok, h1soft.1, h1soft.2,
      h2nr, h2ok, h2plain]
  · intro f us h
    have e0 := h 0 (by omega); have e1 := h 1 (by omega); have e2 := h 2 (by omega)
    have e3 := h 3 (by omega); have e4 := h 4 (by omega); have e5 := h 5 (by omega)
    have e6 := h 6 (by omega); have e7 := h 7 (by omega)
    simp [downloadImageToBuffer, dlLoop, e0.1, e0.2, e1.1, e1.2, e2.1, e2.2, e3.1, e3.2,
      e4.1, e4.2, e5.1, e5.2, e6.1, e6.2, e7.1, redirect_not_ok e7.1]
  · intro f u hnr hnok
    simp [downloadImageToBuffer, dlLoop, hnr, hnok]

/-- Fixture fetch oracle: one ordinary redirect, one soft redirect, then the
binary content. -/
def dlChainFn : String → FetchResp := fun s =>
  if s = "a" then ⟨302, some "b", "", "", []⟩
  else if s = "b" then ⟨200, none, "text/plain; charset=utf-8", "  https://c  ", [1]⟩
  else if s = "https://c" then ⟨200, none, "image/png", "", [9, 9]⟩
  else ⟨404, none, "", "", []⟩

/-- Fixture fetch oracle: every URL redirects to itself, an endless chain. -/
def dlLoopFn : String → FetchResp := fun _ => ⟨301, some "x", "", "", []⟩

/-- Fixture fetch oracle: an immediate failure status. -/
def dlFailFn : String → FetchResp := fun _ => ⟨404, none, "", "", []⟩

theorem downloadImageToBuffer_spec_witness :
    downloadImageToBuffer dlChainFn "a" = .ok [9, 9] ∧
    downloadImageToBuffer dlLoopFn "x" = .error .downloadFailed ∧
    downloadImageToBuffer dlFailFn "u" = .error .downloadFailed := by
  refine ⟨?_, ?_, ?_⟩
  · exact downloadImageToBuffer_spec.1 dlChainFn "a" "b" rfl rfl rfl rfl rfl rfl
  · exact downloadImageToBuffer_spec.2.1 dlLoopFn (fun _ => "x") fun i _ => ⟨rfl, rfl⟩
  · exact downloadImageToBuffer_spec.2.2 dlFailFn "u" rfl rfl

/-- C8: a generation call whose streamed response decodes successfully but
contains zero images fails with the domain-level `noImagesProduced` error — a
constructor distinct from every transport error — instead of returning an
empty success result. -/
theorem generateImages_no_images (env : GenEnv) (t : SessionTokens)
    (atts : List UploadedImage) (p : ParsedResponse)
    (htok : getSessionTokens env.page = .ok t)
    (hup : uploadAll env.uploadResults = .ok atts)
    (hok : env.streamOk = true)
    (hparse : parseStreamResponse env.responseText = .ok p)
    (hempty : p.images = []) :
    generateImages env = .error .noImagesProduced := by
  simp [generateImages, htok, hup, hok, hparse, hempty]

/-- Fixture: a well-formed streamed response whose only candidate carries no
image container (a text-only reply). -/
def fixC8 : String :=
  ")]\x7d\x27\n2\n[[\"wrb.fr\",null,\"[null,[\\\"c_3\\\",\\\"r_3\\\"],null,null,[[\\\"rc_1\\\"]]]\"]]"

/-- Fixture page for the generation environment. -/
def pageGen : FetchPage :=
  ⟨200, "\"SNlM0e\":\"AT\",\"cfb2h\":\"BL\",\"FdrFJe\":\"SID\""⟩

theorem generateImages_no_images_witness :
    generateImages ⟨pageGen, [], true, fixC8⟩ = .error .noImagesProduced :=
  generateImages_no_images ⟨pageGen, [], true, fixC8⟩ ⟨"AT", "BL", "SID", none, none⟩ []
    ⟨[], .str "c_3", .str "r_3", .null⟩ rfl rfl rfl rfl rfl

/-- Status `success` is absorbing under network events: `checkAndCapture`
re-assigns `success` but never leaves it. -/
theorem netStep_succ_absorb (st : AuthSessionState) (ev : NetEvent)
    (h : st.session = some .success) : (netStep st ev).session = some .success := by
  simp only [netStep, h]
  split <;> rfl

/-- A trace started in `success` has no further success transitions. -/
theorem succFlips_of_succ (evs : List NetEvent) :
    ∀ st : AuthSessionState, st.session = some .success → succFlips st evs = 0 := by
  induction evs with
  | nil => intro st _; rfl
  | cons e es ih =>
    intro st h
    simp only [succFlips]
    rw [if_neg fun hcon => hcon.1 h, ih _ (netStep_succ_absorb st e h)]

/-- C6: starting a login session while one is `running` is rejected with the
state unchanged (single flight, not queued); a network event that completes
the mandatory cookie pair while a session is running moves the status to
`success`; and along any trace of network events the status transitions into
`success` at most once — further matching events cause no second success
transition. -/
theorem authSession_single_flight_success_once :
    (∀ st : AuthSessionState, st.session = some .running → startStep st = (st, false)) ∧
    (∀ (st : AuthSessionState) (ev : NetEvent),
      st.session = some .running →
      capComplete (setCookies st.captured (eventPairs ev)) = true →
      (netStep st ev).session = some .success) ∧
    (∀ (st : AuthSessionState) (evs : List NetEvent), succFlips st evs ≤ 1) := by
  refine ⟨?_, ?_, ?_⟩
  · intro st h
    simp [startStep, h]
  · intro st ev h hc
    simp [netStep, hc, h]
  · intro st evs
    induction evs generalizing st with
    | nil => simp [succFlips]
    | cons e es ih =>
      simp only [succFlips]
      by_cases hc : st.session ≠ some .success ∧ (netStep st e).session = some .success
      · rw [if_pos hc, succFlips_of_succ es _ hc.2]
      · rw [if_neg hc]
        simpa using ih (netStep st e)

/-- Fixture running state for the session machine. -/
def authRunning : AuthSessionState := ⟨some .running, []⟩

/-- Fixture event delivering both mandatory cookies at once. -/
def authBothEvt : NetEvent :=
  .setCookieHdr [("__Secure-1PSID", "v1"), ("__Secure-1PSIDTS", "v2"), ("other", "x")]

theorem authSession_single_flight_success_once_witness :
    startStep authRunning = (authRunning, false) ∧
    (netStep authRunning authBothEvt).session = some .success ∧
    succFlips authRunning [authBothEvt, authBothEvt, authBothEvt] ≤ 1 :=
  ⟨authSession_single_flight_success_once.1 authRunning rfl,
   authSession_single_flight_success_once.2.1 authRunning authBothEvt rfl rfl,
   authSession_single_flight_success_once.2.2 authRunning [authBothEvt, authBothEvt, authBothEvt]⟩

/-- The scan state of `fsScan` matches the first-truthy-result specification
`List.findSome? fsTruthy`, as long as the accumulated value is still falsy. -/
theorem fsScan_findSome (ls : List (List Char)) :
    ∀ acc : JVal, truthy acc = false →
      (∀ v, List.findSome? fsTruthy ls = some v → fsScan acc ls = v) ∧
      (List.findSome? fsTruthy ls = none → truthy (fsScan acc ls) = false) := by
  induction ls with
  | nil =>
    intro acc hacc
    exact ⟨fun v h => by simp at h, fun _ => by simpa [fsScan] using hacc⟩
  | cons l rest ih =>
    intro acc hacc
    cases hl : fsLineRaw l with
    | none =>
      have hft : fsTruthy l = none := by simp [fsTruthy, hl]
      constructor
      · intro v h
        rw [List.findSome?_cons, hft] at h
        simpa [fsScan, hl] using (ih acc hacc).1 v h
      · intro h
        rw [List.findSome?_cons, hft] at h
        simpa [fsScan, hl] using (ih acc hacc).2 h
    | some v0 =>
      cases hv0 : truthy v0 with
      | true =>
        have hft : fsTruthy l = some v0 := by simp [fsTruthy, hl, hv0]
        constructor
        · intro v h
          rw [List.findSome?_cons, hft] at h
          cases h
          simp [fsScan, hl, hv0]
        · intro h
          rw [List.findSome?_cons, hft] at h
          cases h
      | false =>
        have hft : fsTruthy l = none := by simp [fsTruthy, hl, hv0]
        constructor
        · intro v h
          rw [List.findSome?_cons, hft] at h
          simpa [fsScan, hl, hv0] using (ih v0 hv0).1 v h
        · intro h
          rw [List.findSome?_cons, hft] at h
          simpa [fsScan, hl, hv0] using (ih v0 hv0).2 h

/-- A value returned by `List.findSome? fsTruthy` is truthy. -/
theorem findSome_fsTruthy_truthy (ls : List (List Char)) :
    ∀ v, List.findSome? fsTruthy ls = some v → truthy v = true := by
  induction ls with
  | nil => intro v h; simp at h
  | cons l rest ih =>
    intro v h
    rw [List.findSome?_cons] at h
    cases hft : fsTruthy l with
    | some w =>
      rw [hft] at h
      cases h
      unfold fsTruthy at hft
      revert hft
      cases fsLineRaw l with
      | none => intro hft; cases hft
      | some v0 =>
        intro hft
        cases hv : truthy v0 with
        | true => simp only [hv, if_pos] at hft; rw [← Option.some_inj.mp hft]; exact hv
        | false => simp only [hv] at hft; simp at hft
    | none =>
      rw [hft] at h
      exact ih v h

/-- C7: the upscale-response decoder strips the envelope and expects exactly
one string result — when the first line whose parseable `wrb.fr`/`c8o8Fe`
entry decodes to a truthy value yields the string `u`, the returned URL is
`u` with the fixed full-resolution suffix appended; when no line yields a
truthy value, the operation fails with the upscale-parse error. -/
theorem requestFullSizeUrl_spec (responseText : String) :
    (∀ u : String, List.findSome? fsTruthy (linesOf responseText) = some (.str u) →
      requestFullSizeUrl responseText = .ok (u ++ "=d-I?alr=yes")) ∧
    (List.findSome? fsTruthy (linesOf responseText) = none →
      requestFullSizeUrl responseText = .error .upscaleParseFailed) := by
  constructor
  · intro u h
    have hsc := (fsScan_findSome (linesOf responseText) .null rfl).1 _ h
    have htr := findSome_fsTruthy_truthy (linesOf responseText) _ h
    simp [requestFullSizeUrl, hsc, htr, jsToString]
  · intro h
    have hsc := (fsScan_findSome (linesOf responseText) .null rfl).2 h
    simp [requestFullSizeUrl, hsc]

/-- Fixture upscale response with one `c8o8Fe` envelope entry. -/
def upC7ok : String :=
  ")]\x7d\x27\n3\n[[\"wrb.fr\",\"c8o8Fe\",\"[\\\"https://full\\\"]\",\"generic\"]]"

/-- Fixture upscale response with no parseable `c8o8Fe` entry. -/
def upC7bad : String := ")]\x7d\x27\n3\n[[\"other\",1]]\ngarbage"

theorem requestFullSizeUrl_spec_witness :
    requestFullSizeUrl upC7ok = .ok "https://full=d-I?alr=yes" ∧
    requestFullSizeUrl upC7bad = .error .upscaleParseFailed :=
  ⟨(requestFullSizeUrl_spec upC7ok).1 "https://full" rfl,
   (requestFullSizeUrl_spec upC7bad).2 rfl⟩

/-- Every binding of `k` in `s` holds the value `v`. -/
def AllVals (s : List (String × String)) (k v : String) : Prop :=
  ∀ p ∈ s, p.1 = k → p.2 = v

/-- Unfolding of `setKV` when the key is present. -/
theorem setKV_map (s : List (String × String)) (k v : String) (h : anyKey s k = true) :
    setKV s k v = s.map fun p => if p.1 == k then (k, v) else p := by
  simp only [setKV, if_pos h]

/-- Unfolding of `setKV` when the key is absent. -/
theorem setKV_app (s : List (String × String)) (k v : String) (h : anyKey s k = false) :
    setKV s k v = s ++ [(k, v)] := by
  simp only [setKV, h, Bool.false_eq_true, if_false]

/-- Key presence after one assignment. -/
theorem anyKey_setKV (s : List (String × String)) (k v j : String) :
    anyKey (setKV s k v) j = true ↔ (anyKey s j = true ∨ j = k) := by
  by_cases hk : anyKey s k = true
  · rw [setKV_map s k v hk]
    simp only [anyKey, List.any_eq_true, List.mem_map, beq_iff_eq] at hk ⊢
    constructor
    · rintro ⟨q, ⟨p, hp, rfl⟩, hj⟩
      by_cases hpk : p.1 = k
      · rw [if_pos hpk] at hj
        exact Or.inr hj.symm
      · rw [if_neg hpk] at hj
        exact Or.inl ⟨p, hp, hj⟩
    · rintro (⟨p, hp, hj⟩ | rfl)
      · by_cases hpk : p.1 = k
        · refine ⟨(k, v), ⟨p, hp, by rw [if_pos hpk]⟩, ?_⟩
          show k = j
          rw [← hpk]
          exact hj
        · exact ⟨p, ⟨p, hp, by rw [if_neg hpk]⟩, hj⟩
      · obtain ⟨p, hp, hpk⟩ := hk
        exact ⟨(j, v), ⟨p, hp, by rw [if_pos hpk]⟩, rfl⟩
  · have hkf : anyKey s k = false := by
      cases hb : anyKey s k with
      | false => rfl
      | true => exact absurd hb hk
    rw [setKV_app s k v hkf]
    simp only [anyKey, List.any_append, Bool.or_eq_true, List.any_eq_true, beq_iff_eq,
      List.mem_singleton]
    constructor
    · rintro (h | h)
      · exact Or.inl h
      · obtain ⟨p, rfl, hpj⟩ := h
        exact Or.inr hpj.symm
    · rintro (h | rfl)
      · exact Or.inl h
      · exact Or.inr ⟨(j, v), rfl, rfl⟩

/-- Absent keys mean no binding. -/
theorem anyKey_false_iff (s : List (String × String)) (k : String) :
    anyKey s k = false ↔ ∀ p ∈ s, p.1 ≠ k := by
  simp [anyKey, List.any_eq_false]

/-- An assignment binds its key. -/
theorem anyKey_setKV_self (s : List (String × String)) (k v : String) :
    anyKey (setKV s k v) k = true :=
  (anyKey_setKV s k v k).mpr (Or.inr rfl)

/-- After `setKV s k v` every binding of `k` is `v`. -/
theorem setKV_allVals_self (s : List (String × String)) (k v : String) :
    AllVals (setKV s k v) k v := by
  intro p hp hpk
  by_cases hk : anyKey s k = true
  · rw [setKV_map s k v hk] at hp
    obtain ⟨⟨a, b⟩, hab, hq⟩ := List.mem_map.mp hp
    by_cases hak : a = k
    · rw [if_pos (show ((a, b).1 == k) = true by simp [hak])] at hq
      rw [← hq]
    · rw [if_neg (show ¬((a, b).1 == k) = true by simp [hak])] at hq
      rw [← hq] at hpk
      exact absurd hpk hak
  · have hkf : anyKey s k = false := by
      cases hb : anyKey s k with
      | false => rfl
      | true => exact absurd hb hk
    rw [setKV_app s k v hkf] at hp
    rcases List.mem_append.mp hp with h | h
    · exact absurd hpk ((anyKey_false_iff s k).mp hkf p h)
    · rw [List.mem_singleton] at h
      subst h
      rfl

/-- Assigning a different key preserves `AllVals`. -/
theorem setKV_allVals_other {s : List (String × String)} {k v : String} (j w : String)
    (hjk : j ≠ k) (h : AllVals s k v) : AllVals (setKV s j w) k v := by
  intro p hp hpk
  by_cases hj : anyKey s j = true
  · rw [setKV_map s j w hj] at hp
    obtain ⟨⟨a, b⟩, hab, hq⟩ := List.mem_map.mp hp
    by_cases haj : a = j
    · rw [if_pos (show ((a, b).1 == j) = true by simp [haj])] at hq
      rw [← hq] at hpk
      exact absurd hpk hjk
    · rw [if_neg (show ¬((a, b).1 == j) = true by simp [haj])] at hq
      rw [← hq] at hpk ⊢
      exact h ⟨a, b⟩ hab hpk
  · have hjf : anyKey s j = false := by
      cases hb : anyKey s j with
      | false => rfl
      | true => exact absurd hb hj
    rw [setKV_app s j w hjf] at hp
    rcases List.mem_append.mp hp with hmem | hmem
    · exact h p hmem hpk
    · rw [List.mem_singleton] at hmem
      subst hmem
      exact absurd hpk hjk

/-- Re-assigning the value every binding already holds is a no-op. -/
theorem setKV_eq_of_allVals {s : List (String × String)} {k v : String}
    (hk : anyKey s k = true) (hall : AllVals s k v) : setKV s k v = s := by
  rw [setKV_map s k v hk]
  have hpt : ∀ p ∈ s, (if p.1 == k then (k, v) else p) = p := by
    rintro ⟨a, b⟩ hab
    by_cases hak : a = k
    · have hb : b = v := hall ⟨a, b⟩ hab hak
      subst hak
      subst hb
      simp
    · simp [hak]
  rw [List.map_congr_left hpt]
  exact List.map_id s

/-- Two assignments to the same key collapse to the later one. -/
theorem setKV_setKV_same (s : List (String × String)) (k v w : String) :
    setKV (setKV s k v) k w = setKV s k w := by
  have h2 : anyKey (setKV s k v) k = true := anyKey_setKV_self s k v
  by_cases hk : anyKey s k = true
  · rw [setKV_map (setKV s k v) k w h2, setKV_map s k v hk, setKV_map s k w hk, List.map_map]
    apply List.map_congr_left
    rintro ⟨a, b⟩ _
    by_cases hak : a = k <;> simp [Function.comp, hak]
  · have hkf : anyKey s k = false := by
      cases hb : anyKey s k with
      | false => rfl
      | true => exact absurd hb hk
    rw [setKV_map (setKV s k v) k w h2, setKV_app s k v hkf, setKV_app s k w hkf,
      List.map_append]
    congr 1
    · have hpt : ∀ p ∈ s, (if p.1 == k then (k, w) else p) = p := by
        rintro ⟨a, b⟩ hab
        have : a ≠ k := (anyKey_false_iff s k).mp hkf ⟨a, b⟩ hab
        simp [this]
      rw [List.map_congr_left hpt]
      exact List.map_id s
    · simp

/-- Assignments to distinct keys commute when the first key is already
present. -/
theorem setKV_comm {s : List (String × String)} {k j : String} (v w : String)
    (hk : anyKey s k = true) (hjk : j ≠ k) :
    setKV (setKV s k v) j w = setKV (setKV s j w) k v := by
  have hkj : k ≠ j := fun h => hjk h.symm
  by_cases hj : anyKey s j = true
  · have a1 : anyKey (setKV s k v) j = true := (anyKey_setKV s k v j).mpr (Or.inl hj)
    have a2 : anyKey (setKV s j w) k = true := (anyKey_setKV s j w k).mpr (Or.inl hk)
    rw [setKV_map (setKV s k v) j w a1, setKV_map (setKV s j w) k v a2,
      setKV_map s k v hk, setKV_map s j w hj, List.map_map, List.map_map]
    apply List.map_congr_left
    rintro ⟨a, b⟩ _
    by_cases hak : a = k
    · simp [Function.comp, hak, hkj, hjk]
    · by_cases haj : a = j
      · simp [Function.comp, hak, haj, hjk, hkj]
      · simp [Function.comp, hak, haj]
  · have hjf : anyKey s j = false := by
      cases hb : anyKey s j with
      | false => rfl
      | true => exact absurd hb hj
    have a1 : anyKey (setKV s k v) j = false := by
      cases hb : anyKey (setKV s k v) j with
      | false => rfl
      | true =>
        rcases (anyKey_setKV s k v j).mp hb with h | h
        · rw [hjf] at h; cases h
        · exact absurd h hjk
    have a2 : anyKey (setKV s j w) k = true := (anyKey_setKV s j w k).mpr (Or.inl hk)
    rw [setKV_app (setKV s k v) j w a1, setKV_map (setKV s j w) k v a2,
      setKV_app s j w hjf, List.map_append, setKV_map s k v hk]
    congr 1
    simp [hjk]

/-- Merging never removes a key. -/
theorem anyKey_setCookies_mono (u : List (String × String)) :
    ∀ (s : List (String × String)) (k : String), anyKey s k = true →
      anyKey (setCookies s u) k = true := by
  induction u with
  | nil => intro s k h; exact h
  | cons q rest ih =>
    intro s k h
    exact ih (setKV s q.1 q.2) k ((anyKey_setKV s q.1 q.2 k).mpr (Or.inl h))

/-- Merging an update list that does not touch `k` preserves `AllVals`. -/
theorem allVals_setCookies (u : List (String × String)) :
    ∀ (s : List (String × String)) (k v : String), anyKey u k = false → AllVals s k v →
      AllVals (setCookies s u) k v := by
  induction u with
  | nil => intro s k v _ h; exact h
  | cons q rest ih =>
    intro s k v hu h
    have hqk : q.1 ≠ k := (anyKey_false_iff (q :: rest) k).mp hu q (List.mem_cons_self q rest)
    have hrest : anyKey rest k = false := by
      rw [anyKey_false_iff] at hu ⊢
      exact fun p hp => hu p (List.mem_cons_of_mem q hp)
    exact ih (setKV s q.1 q.2) k v hrest (setKV_allVals_other q.1 q.2 hqk h)

/-- An assignment that a subsequent merge will overwrite — or whose value
every binding already holds — is absorbed by the merge. -/
theorem setCookies_setKV_absorb (rest : List (String × String)) :
    ∀ (Y : List (String × String)) (k v : String), anyKey Y k = true →
      (anyKey rest k = true ∨ AllVals Y k v) →
      setCookies (setKV Y k v) rest = setCookies Y rest := by
  induction rest with
  | nil =>
    intro Y k v hk hcond
    rcases hcond with h | h
    · simp [anyKey] at h
    · exact setKV_eq_of_allVals hk h
  | cons q rest2 ih =>
    intro Y k v hk hcond
    show setCookies (setKV (setKV Y k v) q.1 q.2) rest2 = setCookies (setKV Y q.1 q.2) rest2
    by_cases hqk : q.1 = k
    · congr 1
      rw [hqk, setKV_setKV_same]
    · rw [setKV_comm v q.2 hk hqk]
      refine ih (setKV Y q.1 q.2) k v ((anyKey_setKV Y q.1 q.2 k).mpr (Or.inl hk)) ?_
      rcases hcond with h | h
      · left
        simp only [anyKey, List.any_cons, Bool.or_eq_true, beq_iff_eq] at h
        rcases h with h1 | h2
        · exact absurd h1 hqk
        · exact h2
      · exact Or.inr (setKV_allVals_other q.1 q.2 hqk h)

/-- C9: `setCookies` (the `CookieStore` merge) is idempotent — merging the
same update map twice yields exactly the same store as merging it once — and
it never removes entries: every key present before a merge is still present
afterwards. -/
theorem setCookies_idempotent_monotone :
    (∀ store updates : List (String × String),
      setCookies (setCookies store updates) updates = setCookies store updates) ∧
    (∀ (store updates : List (String × String)) (k : String),
      anyKey store k = true → anyKey (setCookies store updates) k = true) := by
  constructor
  · intro store updates
    induction updates generalizing store with
    | nil => rfl
    | cons q rest ih =>
      show setCookies (setKV (setCookies (setKV store q.1 q.2) rest) q.1 q.2) rest =
        setCookies (setKV store q.1 q.2) rest
      have hk : anyKey (setCookies (setKV store q.1 q.2) rest) q.1 = true :=
        anyKey_setCookies_mono rest (setKV store q.1 q.2) q.1 (anyKey_setKV_self store q.1 q.2)
      have hcond : anyKey rest q.1 = true ∨
          AllVals (setCookies (setKV store q.1 q.2) rest) q.1 q.2 := by
        cases hr : anyKey rest q.1 with
        | true => exact Or.inl rfl
        | false =>
          exact Or.inr (allVals_setCookies rest (setKV store q.1 q.2) q.1 q.2 hr
            (setKV_allVals_self store q.1 q.2))
      rw [setCookies_setKV_absorb rest (setCookies (setKV store q.1 q.2) rest) q.1 q.2 hk hcond]
      exact ih (setKV store q.1 q.2)
  · intro store updates k h
    exact anyKey_setCookies_mono updates store k h

theorem setCookies_idempotent_monotone_witness :
    setCookies (setCookies [("a", "1")] [("b", "2"), ("a", "3"), ("b", "4")])
        [("b", "2"), ("a", "3"), ("b", "4")] =
      setCookies [("a", "1")] [("b", "2"), ("a", "3"), ("b", "4")] ∧
    anyKey (setCookies [("a", "1")] [("b", "2"), ("a", "3"), ("b", "4")]) "a" = true :=
  ⟨setCookies_idempotent_monotone.1 [("a", "1")] [("b", "2"), ("a", "3"), ("b", "4")],
   setCookies_idempotent_monotone.2 [("a", "1")] [("b", "2"), ("a", "3"), ("b", "4")] "a" rfl⟩

/-- Pairwise-distinct urls under JavaScript strict equality. -/
def UrlsDistinct (images : List ParsedImage) : Prop :=
  List.Pairwise (fun a b => jsStrictEq a.url b.url = false) images

/-- A property preserved by each step of `foldE` is preserved by the fold. -/
theorem foldE_preserve {α β : Type} {P : α → Prop} {f : α → β → Except GemError α}
    (hf : ∀ a b a2, P a → f a b = .ok a2 → P a2) :
    ∀ (bs : List β) (a a2 : α), P a → foldE f a bs = .ok a2 → P a2 := by
  intro bs
  induction bs with
  | nil =>
    intro a a2 h he
    rw [← Except.ok.inj he]
    exact h
  | cons b rest ih =>
    intro a a2 h he
    simp only [foldE] at he
    cases hfb : f a b with
    | error e => rw [hfb] at he; cases he
    | ok a1 =>
      rw [hfb] at he
      exact ih a1 a2 (hf a b a1 h hfb) he

/-- `processVariant` preserves url distinctness: a new image is appended only
behind the strict-equality dedup check. -/
theorem processVariant_preserve (chunkId : JVal) (images : List ParsedImage) (variant : JVal)
    (imgs2 : List ParsedImage) (h : UrlsDistinct images)
    (he : processVariant chunkId images variant = .ok imgs2) : UrlsDistinct imgs2 := by
  simp only [processVariant] at he
  split at he
  · rw [← Except.ok.inj he]; exact h
  · split at he
    · rename_i hfound
      rw [← Except.ok.inj he]; exact h
    · split at he
      · cases he
      · rename_i hguard hnotfound hdims
        rw [← Except.ok.inj he]
        have hnone : ∀ p ∈ images, jsStrictEq p.url (jsGetN variant 3) = false := by
          have := List.any_eq_false.mp (by
            cases hb : images.any fun p => jsStrictEq p.url (jsGetN variant 3) with
            | false => rfl
            | true => exact absurd hb hnotfound)
          intro p hp
          cases hb : jsStrictEq p.url (jsGetN variant 3) with
          | false => rfl
          | true => exact absurd hb (this p hp)
        unfold UrlsDistinct
        rw [List.pairwise_append]
        exact ⟨h, List.pairwise_singleton _ _, fun a ha b hb => by
          rw [List.mem_singleton] at hb
          subst hb
          exact hnone a ha⟩

/-- `processGroup` preserves url distinctness. -/
theorem processGroup_preserve (chunkId group : JVal) (images imgs2 : List ParsedImage)
    (h : UrlsDistinct images) (he : processGroup chunkId images group = .ok imgs2) :
    UrlsDistinct imgs2 := by
  simp only [processGroup] at he
  split at he
  · rw [← Except.ok.inj he]; exact h
  · exact foldE_preserve
      (fun a b a2 ha hab => processVariant_preserve chunkId a b a2 ha hab)
      (variantSlots group) images imgs2 h he

/-- `processCandidate` preserves url distinctness. -/
theorem processCandidate_preserve (candidate : JVal) (images imgs2 : List ParsedImage)
    (h : UrlsDistinct images) (he : processCandidate images candidate = .ok imgs2) :
    UrlsDistinct imgs2 := by
  simp only [processCandidate] at he
  split at he
  · rw [← Except.ok.inj he]; exact h
  · exact foldE_preserve
      (fun a b a2 ha hab => processGroup_preserve _ b a a2 ha hab)
      (allImageGroups (jsGetN candidate 12)) images imgs2 h he

/-- `processPayload` preserves url distinctness of the state. -/
theorem processPayload_preserve (inner : JVal) (st st2 : ParsedResponse)
    (h : UrlsDistinct st.images) (he : processPayload st inner = .ok st2) :
    UrlsDistinct st2.images := by
  simp only [processPayload] at he
  split at he
  · rw [← Except.ok.inj he]; exact h
  · cases hf : foldE processCandidate st.images (elemsOf (jsGetN inner 4)) with
    | error e => rw [hf] at he; cases he
    | ok imgs =>
      rw [hf] at he
      rw [← Except.ok.inj he]
      exact foldE_preserve
        (fun a b a2 ha hab => processCandidate_preserve b a a2 ha hab)
        (elemsOf (jsGetN inner 4)) st.images imgs h hf

/-- `processLine` preserves url distinctness of the state. -/
theorem processLine_preserve (l : List Char) (st st2 : ParsedResponse)
    (h : UrlsDistinct st.images) (he : processLine st l = .ok st2) :
    UrlsDistinct st2.images := by
  simp only [processLine] at he
  cases hd : decodeContentPayload l with
  | none =>
    rw [hd] at he
    rw [← Except.ok.inj he]
    exact h
  | some inner =>
    rw [hd] at he
    cases inner with
    | null => cases he
    | undefValue => exact processPayload_preserve _ st st2 h he
    | bool b => exact processPayload_preserve _ st st2 h he
    | num n => exact processPayload_preserve _ st st2 h he
    | str s => exact processPayload_preserve _ st st2 h he
    | arr xs => exact processPayload_preserve _ st st2 h he
    | obj fs => exact processPayload_preserve _ st st2 h he

/-- Any successful `parseStreamResponse` run returns pairwise-distinct urls
(shared by the dedup and totality claims). -/
theorem parseOk_urls_nodup (s : String) (p : ParsedResponse)
    (h : parseStreamResponse s = .ok p) :
    List.Pairwise (fun a b => jsStrictEq a.url b.url = false) p.images :=
  foldE_preserve
    (fun (a : ParsedResponse) b a2 (ha : UrlsDistinct a.images) hab =>
      processLine_preserve b a a2 ha hab)
    (linesOf s) ⟨[], .null, .null, .null⟩ p List.Pairwise.nil h

/-- Fixture streamed response: one content line with two candidates; the
first candidate's image group has variants at the two known slots
(`group[0][3]` and `group[0][6]`) with distinct URLs, and the second
candidate repeats the first URL. -/
def fixC1 : String :=
  ")]\x7d\x27\n\n5\n[[\"wrb.fr\",null,\"[null,[\\\"c_1\\\",\\\"r_1\\\"],null,null,[[\\\"rc_1\\\",null,null,null,null,null,null,null,null,null,null,null,[null,null,null,null,null,null,null,[[[[null,null,null,[null,null,\\\"f1\\\",\\\"http://u1\\\",null,\\\"tok1\\\"],null,null,[null,null,\\\"f2\\\",\\\"http://u2\\\",null,\\\"tok2\\\"]]]]]]],[\\\"rc_2\\\",null,null,null,null,null,null,null,null,null,null,null,[null,null,null,null,null,null,null,[[[[null,null,null,[null,null,\\\"f3\\\",\\\"http://u1\\\",null,\\\"tok3\\\"]]]]]]]]]\"]]"

set_option maxRecDepth 100000

/-- C1: every successful `parseStreamResponse` run deduplicates the parsed
images by strict url equality across the whole response, and the fixture with
two image variants at the two known variant slots with distinct URLs — plus a
second candidate repeating the first URL — yields exactly two `ParsedImage`
entries. -/
theorem parseStreamResponse_dedup :
    (∀ (s : String) (p : ParsedResponse), parseStreamResponse s = .ok p →
      List.Pairwise (fun a b => jsStrictEq a.url b.url = false) p.images) ∧
    parseStreamResponse fixC1 =
      .ok ⟨[⟨.str "http://u1", .str "f1", .str "image/png", .null, .str "tok1", .str "rc_1"⟩,
            ⟨.str "http://u2", .str "f2", .str "image/png", .null, .str "tok2", .str "rc_1"⟩],
           .str "c_1", .str "r_1", .null⟩ :=
  ⟨parseOk_urls_nodup, rfl⟩

theorem parseStreamResponse_dedup_witness :
    List.Pairwise (fun a b => jsStrictEq a.url b.url = false)
      [(⟨.str "http://u1", .str "f1", .str "image/png", .null, .str "tok1", .str "rc_1"⟩ :
          ParsedImage),
       ⟨.str "http://u2", .str "f2", .str "image/png", .null, .str "tok2", .str "rc_1"⟩] :=
  parseStreamResponse_dedup.1 fixC1
    ⟨[⟨.str "http://u1", .str "f1", .str "image/png", .null, .str "tok1", .str "rc_1"⟩,
      ⟨.str "http://u2", .str "f2", .str "image/png", .null, .str "tok2", .str "rc_1"⟩],
     .str "c_1", .str "r_1", .null⟩
    parseStreamResponse_dedup.2

/-- Fixture streamed response: two payload lines, each carrying a distinct
non-null conversation id / response id pair. -/
def fixC2 : String :=
  ")]\x7d\x27\n1\n[[\"wrb.fr\",null,\"[null,[\\\"c_1\\\",\\\"r_1\\\"]]\"]]\n[[\"wrb.fr\",null,\"[null,[\\\"c_2\\\",\\\"r_2\\\"]]\"]]"

/-- C2 counterexample: on a response whose first payload carries the pair
`("c_1","r_1")` and whose second carries `("c_2","r_2")`, the decoder returns
the second pair — the later payload overwrites the earlier non-null values,
contradicting the claim that the pair is extracted once. -/
theorem pair_first_wins_cex :
    parseStreamResponse fixC2 = .ok ⟨[], .str "c_2", .str "r_2", .null⟩ ∧
    (JVal.str "c_2" ≠ JVal.str "c_1") ∧ (JVal.str "r_2" ≠ JVal.str "r_1") := by
  refine ⟨rfl, fun h => ?_, fun h => ?_⟩
  · injection h with h2
    exact absurd h2 (by decide)
  · injection h with h2
    exact absurd h2 (by decide)

/-- The conversation/response pair a successful `processPayload` leaves in
the state is exactly `pairUpdate` of the payload. -/
theorem processPayload_pair (inner : JVal) (st st2 : ParsedResponse)
    (he : processPayload st inner = .ok st2) :
    (st2.conversationId, st2.responseId) =
      pairUpdate inner (st.conversationId, st.responseId) := by
  simp only [processPayload] at he
  by_cases hc : (isArr (jsGetN inner 1) && decide (2 ≤ arrLen (jsGetN inner 1))) = true
  · simp only [hc, if_true] at he
    simp only [pairUpdate, hc, if_true]
    split at he
    · rw [← Except.ok.inj he]
    · cases hf : foldE processCandidate st.images (elemsOf (jsGetN inner 4)) with
      | error e => rw [hf] at he; cases he
      | ok imgs =>
        rw [hf] at he
        rw [← Except.ok.inj he]
  · have hcf : (isArr (jsGetN inner 1) && decide (2 ≤ arrLen (jsGetN inner 1))) = false := by
      cases hb : isArr (jsGetN inner 1) && decide (2 ≤ arrLen (jsGetN inner 1)) with
      | false => rfl
      | true => exact absurd hb hc
    simp only [hcf, Bool.false_eq_true, if_false] at he
    simp only [pairUpdate, hcf, Bool.false_eq_true, if_false]
    split at he
    · rw [← Except.ok.inj he]
    · cases hf : foldE processCandidate st.images (elemsOf (jsGetN inner 4)) with
      | error e => rw [hf] at he; cases he
      | ok imgs =>
        rw [hf] at he
        rw [← Except.ok.inj he]

/-- The conversation/response pair a successful `processLine` leaves in the
state. -/
theorem processLine_pair (l : List Char) (st st2 : ParsedResponse)
    (he : processLine st l = .ok st2) :
    (st2.conversationId, st2.responseId) =
      (match decodeContentPayload l with
       | some inner => pairUpdate inner (st.conversationId, st.responseId)
       | none => (st.conversationId, st.responseId)) := by
  simp only [processLine] at he
  cases hd : decodeContentPayload l with
  | none =>
    rw [hd] at he
    rw [← Except.ok.inj he]
  | some inner =>
    rw [hd] at he
    cases inner with
    | null => cases he
    | undefValue => exact processPayload_pair _ st st2 he
    | bool b => exact processPayload_pair _ st st2 he
    | num n => exact processPayload_pair _ st st2 he
    | str s => exact processPayload_pair _ st st2 he
    | arr xs => exact processPayload_pair _ st st2 he
    | obj fs => exact processPayload_pair _ st st2 he

/-- The pair returned by a successful fold of `processLine` is the
`pairScan` of the lines. -/
theorem foldE_pair (ls : List (List Char)) :
    ∀ st p, foldE processLine st ls = .ok p →
      (p.conversationId, p.responseId) = pairScan (st.conversationId, st.responseId) ls := by
  induction ls with
  | nil =>
    intro st p he
    rw [← Except.ok.inj he]
    rfl
  | cons l rest ih =>
    intro st p he
    simp only [foldE] at he
    cases hpl : processLine st l with
    | error e => rw [hpl] at he; cases he
    | ok st2 =>
      rw [hpl] at he
      have hstep := processLine_pair l st st2 hpl
      rw [ih st2 p he]
      simp only [pairScan]
      cases hd : decodeContentPayload l with
      | none =>
        rw [hd] at hstep
        rw [hstep]
      | some inner =>
        rw [hd] at hstep
        rw [hstep]

/-- C2 amended: the conversation id / response id pair is re-derived from
every payload line with `x || previous` semantics — a later payload's truthy
id overwrites the earlier value (last non-empty wins), and a falsy (null or
empty) later value leaves the earlier value in place. -/
theorem pair_last_nonempty_wins :
    (∀ (s : String) (p : ParsedResponse), parseStreamResponse s = .ok p →
      (p.conversationId, p.responseId) = pairScan (.null, .null) (linesOf s)) ∧
    (∀ v old : JVal, truthy v = true → jsOr v old = v) ∧
    (∀ v old : JVal, truthy v = false → jsOr v old = old) := by
  refine ⟨fun s p h => foldE_pair (linesOf s) ⟨[], .null, .null, .null⟩ p h, ?_, ?_⟩
  · intro v old h
    simp [jsOr, h]
  · intro v old h
    simp [jsOr, h]

theorem pair_last_nonempty_wins_witness :
    (JVal.str "c_2", JVal.str "r_2") = pairScan (.null, .null) (linesOf fixC2) ∧
    jsOr (.str "x") .null = .str "x" ∧
    jsOr .null (.str "y") = .str "y" :=
  ⟨pair_last_nonempty_wins.1 fixC2 ⟨[], .str "c_2", .str "r_2", .null⟩ rfl,
   pair_last_nonempty_wins.2.1 (.str "x") .null rfl,
   pair_last_nonempty_wins.2.2 .null (.str "y") rfl⟩

/-- Fixture second attachment that would upload successfully. -/
def attB : UploadedImage := ⟨"/contrib/b", "b.png", "image/png"⟩

/-- Fixture generation environment: the first attachment's upload fails, the
second would succeed. -/
def envC5 : GenEnv := ⟨pageGen, [.error .uploadFailed, .ok attB], true, fixC8⟩

/-- C5 counterexample: with two attachments where the first upload fails and
the second would succeed, `generateImages` aborts the whole call with the
upload error — the failure is escalated to the call, not isolated per file. -/
theorem upload_isolation_cex :
    envC5.uploadResults.get? 1 = some (.ok attB) ∧
    generateImages envC5 = .error .uploadFailed :=
  ⟨rfl, rfl⟩

/-- The sequential attachment loop propagates the first upload error. -/
theorem uploadAll_first_error (rs : List (Except GemError UploadedImage)) :
    ∀ (i : Nat) (e : GemError), rs.get? i = some (.error e) →
      (∀ j, j < i → ∀ r, rs.get? j = some r → ∃ a, r = .ok a) →
      uploadAll rs = .error e := by
  induction rs with
  | nil => intro i e hi _; simp at hi
  | cons r rest ih =>
    intro i e hi hok
    cases i with
    | zero =>
      simp only [List.get?] at hi
      rw [Option.some_inj.mp hi]
      rfl
    | succ i2 =>
      obtain ⟨a, ha⟩ := hok 0 (Nat.zero_lt_succ i2) r rfl
      subst ha
      have hrest : uploadAll rest = .error e :=
        ih i2 e hi fun j hj r2 hr2 => hok (j + 1) (Nat.succ_lt_succ hj) r2 hr2
      simp only [uploadAll, hrest]

/-- C5 amended: one attachment's upload failure is not isolated — it aborts
the whole generation call with that error (fail-fast per request) — while
image downloads in the `/generate` route are isolated per item: a failed
download is skipped and the remaining downloads still run. -/
theorem upload_fail_fast_downloads_isolated :
    (∀ (env : GenEnv) (t : SessionTokens) (e : GemError) (i : Nat),
      getSessionTokens env.page = .ok t →
      env.uploadResults.get? i = some (.error e) →
      (∀ j, j < i → ∀ r, env.uploadResults.get? j = some r → ∃ a, r = .ok a) →
      generateImages env = .error e) ∧
    (∀ (dl : JVal → Except GemError (List Nat)) (img : ParsedImage)
        (rest : List ParsedImage) (e : GemError),
      dl img.url = .error e →
      routeDownloadLoop dl (img :: rest) = routeDownloadLoop dl rest) ∧
    (∀ (dl : JVal → Except GemError (List Nat)) (img : ParsedImage)
        (rest : List ParsedImage) (buf : List Nat),
      dl img.url = .ok buf →
      routeDownloadLoop dl (img :: rest) = (img, buf) :: routeDownloadLoop dl rest) := by
  refine ⟨?_, ?_, ?_⟩
  · intro env t e i htok hi hok
    have hup : uploadAll env.uploadResults = .error e :=
      uploadAll_first_error env.uploadResults i e hi hok
    simp [generateImages, htok, hup]
  · intro dl img rest e h
    simp [routeDownloadLoop, h]
  · intro dl img rest buf h
    simp [routeDownloadLoop, h]

/-- Fixture download oracle failing exactly on the first fixture url. -/
def dlPick : JVal → Except GemError (List Nat) := fun u =>
  if jsStrictEq u (.str "http://u1") then .error .downloadFailed else .ok [5]

/-- Fixture image entries for the download-isolation witness. -/
def imgU1 : ParsedImage := ⟨.str "http://u1", .str "f1", .str "image/png", .null, .null, .null⟩

/-- Second fixture image entry. -/
def imgU2 : ParsedImage := ⟨.str "http://u2", .str "f2", .str "image/png", .null, .null, .null⟩

theorem upload_fail_fast_downloads_isolated_witness :
    generateImages envC5 = .error .uploadFailed ∧
    routeDownloadLoop dlPick [imgU1, imgU2] = routeDownloadLoop dlPick [imgU2] ∧
    routeDownloadLoop dlPick [imgU2] = (imgU2, [5]) :: routeDownloadLoop dlPick [] :=
  ⟨upload_fail_fast_downloads_isolated.1 envC5 ⟨"AT", "BL", "SID", none, none⟩ .uploadFailed 0
      rfl rfl (fun j hj => absurd hj (Nat.not_lt_zero j)),
   upload_fail_fast_downloads_isolated.2.1 dlPick imgU1 [imgU2] .downloadFailed rfl,
   upload_fail_fast_downloads_isolated.2.2 dlPick imgU2 [] [5] rfl⟩

/-- Fixture line whose double-encoded payload is the JSON literal `null`:
the source then evaluates `inner[1]` on `null` outside any `try`. -/
def fixC10 : String := "[[\"wrb.fr\",null,\"null\"]]"

/-- C10 counterexample: `parseStreamResponse` is not total — on a line whose
payload decodes to JSON `null` it throws an uncaught `TypeError` (modelled by
the `nullDeref` error) instead of returning a `ParsedResponse`. -/
theorem parseStreamResponse_total_cex :
    parseStreamResponse fixC10 = .error .nullDeref := rfl

/-- A variant without the dimensions hazard cannot make `processVariant`
throw. -/
theorem processVariant_ok (chunkId variant : JVal) (hv : variantBadDims variant = false) :
    ∀ images, ∃ imgs2, processVariant chunkId images variant = .ok imgs2 := by
  intro images
  simp only [processVariant]
  split
  · exact ⟨images, rfl⟩
  · rename_i hguard
    split
    · exact ⟨images, rfl⟩
    · split
      · rename_i hfound hdims
        exfalso
        have hA : isArr variant = true := by
          cases ha : isArr variant with
          | true => rfl
          | false => exact absurd (by rw [ha]; rfl) hguard
        have hB : truthy (jsGetN variant 3) = true := by
          cases hb : truthy (jsGetN variant 3) with
          | true => rfl
          | false => exact absurd (by rw [hb]; simp) hguard
        rw [variantBadDims, hA, hB, hdims] at hv
        exact Bool.noConfusion hv
      · exact ⟨_, rfl⟩

/-- A fold whose every step succeeds succeeds. -/
theorem foldE_ok {α β : Type} {f : α → β → Except GemError α} (bs : List β)
    (hf : ∀ b ∈ bs, ∀ a, ∃ a2, f a b = .ok a2) :
    ∀ a, ∃ a2, foldE f a bs = .ok a2 := by
  induction bs with
  | nil => intro a; exact ⟨a, rfl⟩
  | cons b rest ih =>
    intro a
    obtain ⟨a1, ha1⟩ := hf b (List.mem_cons_self b rest) a
    obtain ⟨a2, ha2⟩ := ih (fun b2 hb2 a3 => hf b2 (List.mem_cons_of_mem b hb2) a3) a1
    refine ⟨a2, ?_⟩
    simp only [foldE, ha1]
    exact ha2

/-- A group without the dimensions hazard cannot make `processGroup` throw. -/
theorem processGroup_ok (chunkId group : JVal) (hg : groupBadDims group = false) :
    ∀ images, ∃ imgs2, processGroup chunkId images group = .ok imgs2 := by
  intro images
  simp only [processGroup]
  split
  · exact ⟨images, rfl⟩
  · rename_i hguard
    have hA : isArr group = true := by
      cases ha : isArr group with
      | true => rfl
      | false => exact absurd (by rw [ha]; rfl) hguard
    have hB : isArr (jsGetN group 0) = true := by
      cases hb : isArr (jsGetN group 0) with
      | true => rfl
      | false => exact absurd (by rw [hb]; simp) hguard
    rw [groupBadDims, hA, hB] at hg
    simp only [Bool.true_and] at hg
    refine foldE_ok (variantSlots group) (fun v hv images2 => ?_) images
    have hvf : variantBadDims v = false := by
      cases hb : variantBadDims v with
      | false => rfl
      | true => exact absurd hg (by simp [List.any_eq_true]; exact ⟨v, hv, hb⟩)
    exact processVariant_ok chunkId v hvf images2

/-- A candidate without the dimensions hazard cannot make `processCandidate`
throw. -/
theorem processCandidate_ok (candidate : JVal) (hc : candidateBadDims candidate = false) :
    ∀ images, ∃ imgs2, processCandidate images candidate = .ok imgs2 := by
  intro images
  simp only [processCandidate]
  split
  · exact ⟨images, rfl⟩
  · rename_i hguard
    have hA : isArr candidate = true := by
      cases ha : isArr candidate with
      | true => rfl
      | false => exact absurd (by rw [ha]; rfl) hguard
    have hB : truthy (jsGetN candidate 12) = true := by
      cases hb : truthy (jsGetN candidate 12) with
      | true => rfl
      | false => exact absurd (by rw [hb]; simp) hguard
    rw [candidateBadDims, hA, hB] at hc
    simp only [Bool.true_and] at hc
    refine foldE_ok (allImageGroups (jsGetN candidate 12)) (fun g hg images2 => ?_) images
    have hgf : groupBadDims g = false := by
      cases hb : groupBadDims g with
      | false => rfl
      | true => exact absurd hc (by simp [List.any_eq_true]; exact ⟨g, hg, hb⟩)
    exact processGroup_ok _ g hgf images2

/-- A payload without the dimensions hazard cannot make `processPayload`
throw. -/
theorem processPayload_ok (inner : JVal) (hp : payloadBadDims inner = false) :
    ∀ st, ∃ st2, processPayload st inner = .ok st2 := by
  intro st
  simp only [processPayload]
  split
  · exact ⟨_, rfl⟩
  · rename_i hguard
    have hA : isArr (jsGetN inner 4) = true := by
      cases ha : isArr (jsGetN inner 4) with
      | true => rfl
      | false => exact absurd (by rw [ha]; rfl) hguard
    rw [payloadBadDims, hA] at hp
    simp only [Bool.true_and] at hp
    have hall : ∀ c ∈ elemsOf (jsGetN inner 4), ∀ images, ∃ imgs2,
        processCandidate images c = .ok imgs2 := by
      intro c hcm images
      have hcf : candidateBadDims c = false := by
        cases hb : candidateBadDims c with
        | false => rfl
        | true => exact absurd hp (by simp [List.any_eq_true]; exact ⟨c, hcm, hb⟩)
      exact processCandidate_ok c hcf images
    obtain ⟨imgs, hi⟩ := foldE_ok (elemsOf (jsGetN inner 4)) hall st.images
    rw [hi]
    exact ⟨_, rfl⟩

/-- A line that `lineMayCrash` clears cannot make `processLine` throw. -/
theorem processLine_ok (l : List Char) (hl : lineMayCrash l = false) :
    ∀ st, ∃ st2, processLine st l = .ok st2 := by
  intro st
  simp only [processLine]
  unfold lineMayCrash at hl
  cases hd : decodeContentPayload l with
  | none => exact ⟨st, rfl⟩
  | some inner =>
    rw [hd] at hl
    cases inner with
    | null => exact Bool.noConfusion hl
    | undefValue => exact processPayload_ok _ hl st
    | bool b => exact processPayload_ok _ hl st
    | num n => exact processPayload_ok _ hl st
    | str s => exact processPayload_ok _ hl st
    | arr xs => exact processPayload_ok _ hl st
    | obj fs => exact processPayload_ok _ hl st

/-- C10 amended: `parseStreamResponse` returns a `ParsedResponse` without
raising on every input none of whose content lines decode to the JSON `null`
payload or carry an image variant whose `dimensions` field is truthy but not
an array (those two inputs make the source throw an uncaught `TypeError`);
and the images list of every returned `ParsedResponse` has pairwise-distinct
url fields. -/
theorem parseStreamResponse_total_amended :
    (∀ s : String, ((linesOf s).all fun l => !lineMayCrash l) = true →
      ∃ p, parseStreamResponse s = .ok p) ∧
    (∀ (s : String) (p : ParsedResponse), parseStreamResponse s = .ok p →
      List.Pairwise (fun a b => jsStrictEq a.url b.url = false) p.images) := by
  constructor
  · intro s hs
    show ∃ p, foldE processLine ⟨[], .null, .null, .null⟩ (linesOf s) = .ok p
    refine foldE_ok (linesOf s) (fun l hl st => ?_) (⟨[], .null, .null, .null⟩ : ParsedResponse)
    have hcrash : lineMayCrash l = false := by
      have := List.all_eq_true.mp hs l hl
      cases hb : lineMayCrash l with
      | false => rfl
      | true => rw [hb] at this; cases this
    exact processLine_ok l hcrash st
  · exact parseOk_urls_nodup

theorem parseStreamResponse_total_amended_witness :
    (∃ p, parseStreamResponse "hello\n42\n[[\"di\",3]]" = .ok p) ∧
    List.Pairwise (fun a b => jsStrictEq a.url b.url = false)
      ([] : List ParsedImage) :=
  ⟨parseStreamResponse_total_amended.1 "hello\n42\n[[\"di\",3]]" rfl,
   parseStreamResponse_total_amended.2 "hello\n42\n[[\"di\",3]]"
     ⟨[], .null, .null, .null⟩ rfl⟩
